import Mathlib

/-!
Verification of the batched incremental-mutation pipeline in
`src/stamp.cpp` (in-place streaming PDF stamper with incremental save).

The development shallowly embeds the pieces of the program that the
checked claims are about:

* `stoi`, `getlineTokens`, `strFind`, `parseTok`, `parseSpec` — the
  selection-spec parser `parseSpec` (src/stamp.cpp lines 112-138),
  including the exact semantics of `std::stoi` (skip whitespace,
  optional sign, at least one digit, ignore trailing characters, throw
  on no digit or on overflow past the 32-bit `int` range; a throw is
  modelled as `none`) and of repeated `std::getline(ss, tok, ',')`.
* `Sink` — the output `FILE*` of `FileWriter` (lines 81-101): a byte
  list plus a write cursor; `fwrite` overwrites at the cursor and
  advances it, `std::rewind` repositions the cursor to offset zero.
* `Env` — the external PDFium collaborator at its interface boundary:
  whether the document loads, the page count, which per-page loads
  succeed, and the result and written bytes of each incremental save.
* `batchLoop`, `runBatches`, `InplaceIncrementalStamp`, `mainExit` —
  the orchestrator `InplaceIncrementalStamp` (lines 141-231) and the
  exit-status behaviour of `main` (lines 234-254).

The batch loop is written with an explicit fuel argument so that it is
structurally recursive (and hence evaluable by `decide`); the run
supplies fuel `(pageCount + 1).toNat`, which strictly exceeds the
number of iterations of the C++ loop
`for (int start = 1; start <= pageCount; start += STEP)` with
`STEP = 40`, so the zero-fuel branch is never reached from the run.
-/

namespace Stamp

/-! ## Characters and std::stoi -/

/-- The six characters accepted by `isspace` in the default C locale,
compared through their code points. -/
def isSpaceChar (c : Char) : Bool :=
  c.toNat = 32 || c.toNat = 9 || c.toNat = 10 ||
  c.toNat = 11 || c.toNat = 12 || c.toNat = 13

/-- Decimal digit test, by code point (48 = '0' .. 57 = '9'). -/
def isDigitChar (c : Char) : Bool :=
  48 ≤ c.toNat && c.toNat ≤ 57

/-- Value accumulated by `std::stoi` over a digit string, most
significant digit first. -/
def digitsToNat (ds : List Char) : Nat :=
  ds.foldl (fun a c => 10 * a + (c.toNat - 48)) 0

/-- Sign handling of `std::stoi`: an optional leading minus or plus
sign is consumed; anything else leaves the list unchanged with a
positive sign. -/
def stoiSign : List Char → Int × List Char
  | [] => (1, [])
  | c :: r => if c = '-' then (-1, r) else if c = '+' then (1, r) else (1, c :: r)

/-- Model of `std::stoi` on the text of one token: skip whitespace,
consume an optional sign, read a maximal run of digits (throwing,
modelled as `none`, when there is none), ignore what follows, and
throw when the signed value does not fit a 32-bit `int`. -/
def stoi (cs : List Char) : Option Int :=
  let t := cs.dropWhile isSpaceChar
  let sr := stoiSign t
  let ds := sr.2.takeWhile isDigitChar
  if ds = [] then none
  else
    let v : Int := sr.1 * (digitsToNat ds : Int)
    if v < -2147483648 ∨ 2147483647 < v then none else some v

/-! ## Tokenisation: std::getline with delimiter ',' -/

/-- Split a character list at every comma, keeping empty pieces; this
is the plain comma-split of the spec string. -/
def splitCommaAux : List Char → List Char → List (List Char)
  | [], cur => [cur]
  | c :: cs, cur => if c = ',' then cur :: splitCommaAux cs [] else splitCommaAux cs (cur ++ [c])

/-- The token sequence produced by the loop
`while (std::getline(ss, tok, ','))` in `parseSpec`
(src/stamp.cpp line 123).  `std::getline` fails, producing no token,
exactly when the stream is already at end-of-file, which happens for
the final piece of the comma-split iff that piece is empty (the input
is empty or ends with a comma); that trailing empty piece is
therefore dropped. -/
def getlineTokens (cs : List Char) : List (List Char) :=
  let ts := splitCommaAux cs []
  if ts.getLast? = some [] then ts.dropLast else ts

/-- Model of `std::string::find(char)` (`tok.find('-')`,
src/stamp.cpp line 124): index of the first occurrence, `none` for
`npos`. -/
def strFind (c : Char) : List Char → Option Nat
  | [] => none
  | d :: ds => if d = c then some 0 else (strFind c ds).map (· + 1)

/-! ## The pageSpec parser -/

/-- One iteration of the token loop of `parseSpec`
(src/stamp.cpp lines 123-135): a token without a dash is a single
page number, inserted only when it lies in `[1, maxPage]`; a token
with a dash is split at the first dash into two `std::stoi` calls,
the bounds are swapped when reversed, clamped to `[1, maxPage]`, and
the whole range is inserted.  A `std::stoi` throw propagates
(`none`). -/
def parseTok (maxPage : Int) (acc : Finset Int) (tok : List Char) : Option (Finset Int) :=
  match strFind '-' tok with
  | none => do
      let p ← stoi tok
      pure (if 1 ≤ p ∧ p ≤ maxPage then insert p acc else acc)
  | some dash => do
      let a ← stoi (tok.take dash)
      let b ← stoi (tok.drop (dash + 1))
      let a' := if a > b then b else a
      let b' := if a > b then a else b
      pure (acc ∪ Finset.Icc (max a' 1) (min b' maxPage))

/-- `parseSpec` (src/stamp.cpp lines 112-138).  The literal `"all"`
expands to every page `1 .. maxPage` (the loop
`for (int i = 1; i <= maxPage; ++i) idx.insert(i)` builds exactly
`Finset.Icc 1 maxPage`); otherwise the comma-separated tokens are
folded through `parseTok`, short-circuiting on a `std::stoi` throw. -/
def parseSpec (spec : String) (maxPage : Int) : Option (Finset Int) :=
  if spec = "all" then some (Finset.Icc 1 maxPage)
  else List.foldlM (parseTok maxPage) ∅ (getlineTokens spec.toList)

/-! ## The output sink -/

/-- The output `FILE*` of `FileWriter`: current file contents (bytes)
and the file position indicator.  In every run of this program the
cursor never exceeds the data length. -/
structure Sink where
  data : List Nat
  cursor : Nat
deriving DecidableEq

/-- `fwrite` at the current position: overwrites existing bytes,
extends the file at the end, and advances the cursor. -/
def Sink.writeBytes (s : Sink) (bs : List Nat) : Sink :=
  { data := s.data.take s.cursor ++ bs ++ s.data.drop (s.cursor + bs.length),
    cursor := s.cursor + bs.length }

/-- Step 3a of `InplaceIncrementalStamp` (src/stamp.cpp lines 175-182):
the freshly opened (hence empty) output receives a verbatim copy of
the input bytes, leaving the cursor at end-of-copy. -/
def Sink.copyFrom (input : List Nat) : Sink :=
  { data := input, cursor := input.length }

/-- `std::rewind(fw.fp)` (src/stamp.cpp line 185): repositions the
file position indicator to the beginning of the file. -/
def Sink.rewind (s : Sink) : Sink :=
  { s with cursor := 0 }

/-! ## The external library and the orchestrator -/

/-- The external PDFium collaborator and the input file, specified at
the interface boundary: whether `FPDF_LoadCustomDocument` returns a
document, the `FPDF_GetPageCount` result, whether `FPDF_LoadPage`
succeeds for a given 1-based page index, and the boolean result and
written byte stream of the k-th `FPDF_SaveWithVersion` call. -/
structure Env where
  loadOk : Bool
  pageCount : Int
  pageLoadOk : Int → Bool
  saveResult : Nat → Bool
  saveBytes : Nat → List Nat
  inputBytes : List Nat

/-- Result of the batch loop (src/stamp.cpp lines 189-224): whether it
ran to completion, the final sink, the set of pages actually stamped,
the number of incremental-save calls issued, and the list of
processed batches as (start, end) index pairs in issue order. -/
structure LoopRes where
  success : Bool
  sink : Sink
  mutated : Finset Int
  saves : Nat
  batches : List (Int × Int)

/-- The batch loop of `InplaceIncrementalStamp`
(src/stamp.cpp lines 189-224) with `STEP = 40`:
`for (int start = 1; start <= pageCount; start += STEP)` computes
`end = min(start + STEP - 1, pageCount)`, stamps every page of
`[start, end]` that is in the selection and loads successfully
(a failed `FPDF_LoadPage` is skipped with `continue`), then issues
one incremental save, returning `false` immediately when the save
reports failure.  `fuel` makes the recursion structural; every use
supplies more fuel than the loop has iterations. -/
def batchLoop (env : Env) (wanted : Finset Int) :
    Nat → Int → Nat → Sink → Finset Int → LoopRes
  | 0, _, k, sink, mutated => ⟨true, sink, mutated, k, []⟩
  | fuel + 1, start, k, sink, mutated =>
    if start ≤ env.pageCount then
      let e : Int := min (start + 39) env.pageCount
      let mutated' := mutated ∪ (Finset.Icc start e).filter
        (fun p => p ∈ wanted ∧ env.pageLoadOk p = true)
      let sink' := sink.writeBytes (env.saveBytes k)
      if env.saveResult k then
        let r := batchLoop env wanted fuel (start + 40) (k + 1) sink' mutated'
        { r with batches := (start, e) :: r.batches }
      else ⟨false, sink', mutated', k + 1, [(start, e)]⟩
    else ⟨true, sink, mutated, k, []⟩

/-- The batch intervals the loop processes from a given start index:
the same recursion as `batchLoop`, carrying only the (start, end)
pairs. -/
def batchesFrom (n : Int) : Nat → Int → List (Int × Int)
  | 0, _ => []
  | fuel + 1, start =>
    if start ≤ n then (start, min (start + 39) n) :: batchesFrom n fuel (start + 40) else []

/-- The failure modes of one run (section 7 of the design): document
load failure, a propagated selection-spec parse exception, an empty
selection, and a failed incremental save. -/
inductive RunError where
  | loadErr
  | parseErr
  | emptySelection
  | saveErr
deriving DecidableEq

/-- Observable outcome of one run of `InplaceIncrementalStamp`:
return value, diagnosed error, whether the output file was ever
opened, the final sink, the cursor right after the verbatim copy and
right after the rewind, the stamped pages, the number of
incremental-save calls, the batches, and whether `FPDF_CloseDocument`
and `FPDF_DestroyLibrary` were reached. -/
structure RunResult where
  ok : Bool
  error : Option RunError
  sinkOpened : Bool
  sink : Sink
  cursorAfterCopy : Nat
  cursorAfterRewind : Nat
  mutated : Finset Int
  saveCalls : Nat
  batches : List (Int × Int)
  closedDoc : Bool
  destroyedLib : Bool

/-- A run that stops before the output file is opened (load failure,
parse exception, empty selection): no sink exists, nothing was
stamped or saved, and neither `FPDF_CloseDocument` nor
`FPDF_DestroyLibrary` is executed on these early-return paths
(src/stamp.cpp lines 158-161 and 166-169 return directly; the
`std::stoi` exception unwinds to the catch in `main`). -/
def failResult (e : RunError) : RunResult :=
  { ok := false, error := some e, sinkOpened := false, sink := ⟨[], 0⟩,
    cursorAfterCopy := 0, cursorAfterRewind := 0, mutated := ∅,
    saveCalls := 0, batches := [], closedDoc := false, destroyedLib := false }

/-- Steps 3-5 of `InplaceIncrementalStamp` (src/stamp.cpp lines
172-231), after a nonempty selection was obtained: open the output,
copy the input bytes verbatim, flush and `std::rewind`, run the batch
loop, and on success close the document and destroy the library;
a save failure returns `false` without reaching the cleanup. -/
def runBatches (env : Env) (wanted : Finset Int) : RunResult :=
  let copied := Sink.copyFrom env.inputBytes
  let rewound := copied.rewind
  let r := batchLoop env wanted (env.pageCount + 1).toNat 1 0 rewound ∅
  { ok := r.success,
    error := if r.success then none else some RunError.saveErr,
    sinkOpened := true, sink := r.sink,
    cursorAfterCopy := copied.cursor, cursorAfterRewind := rewound.cursor,
    mutated := r.mutated, saveCalls := r.saves, batches := r.batches,
    closedDoc := r.success, destroyedLib := r.success }

/-- `InplaceIncrementalStamp` (src/stamp.cpp lines 141-231): fail with
the library's load error when no document loads; parse the spec
against the page count (a parse exception propagates); fail when no
pages matched; otherwise run the copy, rewind and batch loop. -/
def InplaceIncrementalStamp (env : Env) (spec : String) : RunResult :=
  if env.loadOk = true then
    match parseSpec spec env.pageCount with
    | none => failResult RunError.parseErr
    | some wanted =>
        if wanted = ∅ then failResult RunError.emptySelection
        else runBatches env wanted
  else failResult RunError.loadErr

/-- Exit status of `main` (src/stamp.cpp lines 244-253): 0 when
`InplaceIncrementalStamp` returns `true`, 1 on a `false` return or on
a propagated exception. -/
def mainExit (env : Env) (spec : String) : Nat :=
  if (InplaceIncrementalStamp env spec).ok = true then 0 else 1

end Stamp

namespace Stamp

/-! ## Decimal renderings of integers

`natStr n` is the decimal rendering of a natural number, used to state
claims that quantify over the integers appearing in a selection spec.
It is written with a fuel argument (any fuel above the digit count
gives the rendering) to keep the recursion structural. -/

/-- The character of one decimal digit. -/
def digitChar (d : Nat) : Char := Char.ofNat (48 + d)

/-- Decimal rendering, most significant digit first, with fuel. -/
def natStrAux : Nat → Nat → List Char
  | 0, _ => []
  | fuel + 1, n =>
    if n < 10 then [digitChar n] else natStrAux fuel (n / 10) ++ [digitChar (n % 10)]

/-- Decimal rendering of a natural number. -/
def natStr (n : Nat) : List Char := natStrAux (n + 1) n

/-- Decimal rendering of an integer, with a leading minus sign for
negative values. -/
def intStr (b : Int) : List Char :=
  if b < 0 then '-' :: natStr (-b).toNat else natStr b.toNat

lemma digitChar_toNat {d : Nat} (h : d < 10) : (digitChar d).toNat = 48 + d := by
  interval_cases d <;> decide

lemma isDigitChar_digitChar {d : Nat} (h : d < 10) : isDigitChar (digitChar d) = true := by
  interval_cases d <;> decide

lemma natStrAux_ne_nil : ∀ fuel n, n < fuel → natStrAux fuel n ≠ [] := by
  intro fuel
  induction fuel with
  | zero => intro n h; omega
  | succ fuel ih =>
      intro n _
      by_cases h10 : n < 10
      · simp [natStrAux, h10]
      · simp [natStrAux, h10]

lemma natStrAux_digits : ∀ fuel n, n < fuel → ∀ c ∈ natStrAux fuel n, isDigitChar c = true := by
  intro fuel
  induction fuel with
  | zero => intro n h; omega
  | succ fuel ih =>
      intro n hn c hc
      by_cases h10 : n < 10
      · simp only [natStrAux, if_pos h10, List.mem_singleton] at hc
        exact hc ▸ isDigitChar_digitChar h10
      · simp only [natStrAux, if_neg h10, List.mem_append, List.mem_singleton] at hc
        rcases hc with hc | hc
        · exact ih (n / 10) (by omega) c hc
        · exact hc ▸ isDigitChar_digitChar (Nat.mod_lt n (by omega))

lemma digitsToNat_append_singleton (xs : List Char) (c : Char) :
    digitsToNat (xs ++ [c]) = 10 * digitsToNat xs + (c.toNat - 48) := by
  simp [digitsToNat, List.foldl_append]

lemma digitsToNat_natStrAux : ∀ fuel n, n < fuel → digitsToNat (natStrAux fuel n) = n := by
  intro fuel
  induction fuel with
  | zero => intro n h; omega
  | succ fuel ih =>
      intro n hn
      by_cases h10 : n < 10
      · simp [natStrAux, h10, digitsToNat, digitChar_toNat h10]
      · rw [natStrAux, if_neg h10, digitsToNat_append_singleton,
          ih (n / 10) (by omega), digitChar_toNat (Nat.mod_lt n (by omega))]
        omega

lemma natStr_ne_nil (n : Nat) : natStr n ≠ [] := natStrAux_ne_nil (n + 1) n (by omega)

lemma natStr_digits (n : Nat) : ∀ c ∈ natStr n, isDigitChar c = true :=
  natStrAux_digits (n + 1) n (by omega)

lemma digitsToNat_natStr (n : Nat) : digitsToNat (natStr n) = n :=
  digitsToNat_natStrAux (n + 1) n (by omega)

/-! ## Facts about stoi on pure decimal renderings -/

lemma isSpaceChar_of_digit {c : Char} (h : isDigitChar c = true) : isSpaceChar c = false := by
  simp only [isDigitChar, Bool.and_eq_true, decide_eq_true_eq] at h
  simp only [isSpaceChar, Bool.or_eq_false_iff, decide_eq_false_iff_not]
  omega

lemma digit_ne_char {c d : Char} (h : isDigitChar c = true)
    (hd : d.toNat < 48 ∨ 57 < d.toNat) : c ≠ d := by
  intro hcd
  subst hcd
  simp only [isDigitChar, Bool.and_eq_true, decide_eq_true_eq] at h
  omega

lemma digit_ne_dash {c : Char} (h : isDigitChar c = true) : c ≠ '-' :=
  digit_ne_char h (Or.inl (by decide))

lemma digit_ne_plus {c : Char} (h : isDigitChar c = true) : c ≠ '+' :=
  digit_ne_char h (Or.inl (by decide))

lemma digit_ne_comma {c : Char} (h : isDigitChar c = true) : c ≠ ',' :=
  digit_ne_char h (Or.inl (by decide))

lemma takeWhile_all {α : Type} {p : α → Bool} :
    ∀ {l : List α}, (∀ x ∈ l, p x = true) → l.takeWhile p = l := by
  intro l
  induction l with
  | nil => intro _; rfl
  | cons a l ih =>
      intro h
      rw [List.takeWhile_cons, h a (List.mem_cons_self a l),
        ih (fun x hx => h x (List.mem_cons_of_mem a hx))]
      simp

lemma dropWhile_spaces_of_digits {l : List Char} (h : ∀ c ∈ l, isDigitChar c = true) :
    l.dropWhile isSpaceChar = l := by
  cases l with
  | nil => rfl
  | cons c r =>
      rw [List.dropWhile_cons,
        isSpaceChar_of_digit (h c (List.mem_cons_self c r))]
      simp

/-- `std::stoi` inverts the decimal rendering of an in-range natural. -/
lemma stoi_natStr (n : Nat) (h : (n : Int) ≤ 2147483647) : stoi (natStr n) = some (n : Int) := by
  have hdig := natStr_digits n
  obtain ⟨c, r, hcr⟩ : ∃ c r, natStr n = c :: r := by
    cases hl : natStr n with
    | nil => exact absurd hl (natStr_ne_nil n)
    | cons c r => exact ⟨c, r, rfl⟩
  have hc : isDigitChar c = true := hdig c (by rw [hcr]; exact List.mem_cons_self c r)
  have hsign : stoiSign (natStr n) = (1, natStr n) := by
    conv_lhs => rw [hcr]
    simp only [stoiSign, if_neg (digit_ne_dash hc), if_neg (digit_ne_plus hc)]
    rw [← hcr]
  simp only [stoi, dropWhile_spaces_of_digits hdig, hsign, takeWhile_all hdig]
  rw [if_neg (natStr_ne_nil n), digitsToNat_natStr]
  rw [if_neg (by omega : ¬((1 : Int) * (n : Int) < -2147483648 ∨ 2147483647 < (1 : Int) * (n : Int)))]
  simp

/-- `std::stoi` inverts a minus sign followed by the decimal rendering
of a natural of magnitude at most 2^31. -/
lemma stoi_neg_natStr (n : Nat) (h : (n : Int) ≤ 2147483648) :
    stoi ('-' :: natStr n) = some (-(n : Int)) := by
  have hdig := natStr_digits n
  have hdrop : ('-' :: natStr n).dropWhile isSpaceChar = '-' :: natStr n := by
    rw [List.dropWhile_cons]
    have : isSpaceChar '-' = false := by decide
    rw [this]
    simp
  have hsign : stoiSign ('-' :: natStr n) = (-1, natStr n) := by
    simp [stoiSign]
  simp only [stoi, hdrop, hsign, takeWhile_all hdig]
  rw [if_neg (natStr_ne_nil n), digitsToNat_natStr]
  rw [if_neg (by omega : ¬((-1 : Int) * (n : Int) < -2147483648 ∨ 2147483647 < (-1 : Int) * (n : Int)))]
  simp

end Stamp

namespace Stamp

/-! ## Tokenisation facts -/

lemma splitCommaAux_no_comma :
    ∀ (l cur : List Char), (∀ c ∈ l, c ≠ ',') → splitCommaAux l cur = [cur ++ l] := by
  intro l
  induction l with
  | nil => intro cur _; simp [splitCommaAux]
  | cons c cs ih =>
      intro cur h
      rw [splitCommaAux, if_neg (h c (List.mem_cons_self c cs)),
        ih (cur ++ [c]) (fun x hx => h x (List.mem_cons_of_mem c hx))]
      simp

lemma getlineTokens_no_comma {l : List Char} (hnc : ∀ c ∈ l, c ≠ ',') (hne : l ≠ []) :
    getlineTokens l = [l] := by
  unfold getlineTokens
  rw [splitCommaAux_no_comma l [] hnc]
  simp [hne]

lemma strFind_eq_none {sep : Char} :
    ∀ {l : List Char}, (∀ c ∈ l, c ≠ sep) → strFind sep l = none := by
  intro l
  induction l with
  | nil => intro _; rfl
  | cons d ds ih =>
      intro h
      rw [strFind, if_neg (h d (List.mem_cons_self d ds)),
        ih (fun x hx => h x (List.mem_cons_of_mem d hx))]
      rfl

lemma strFind_append (sep : Char) :
    ∀ (xs ys : List Char), (∀ c ∈ xs, c ≠ sep) →
      strFind sep (xs ++ sep :: ys) = some xs.length := by
  intro xs
  induction xs with
  | nil => intro ys _; simp [strFind]
  | cons d ds ih =>
      intro ys h
      rw [List.cons_append, strFind, if_neg (h d (List.mem_cons_self d ds)),
        ih ys (fun x hx => h x (List.mem_cons_of_mem d hx))]
      simp

lemma string_mk_ne_all_of_dash {l : List Char} (hl : '-' ∈ l) : String.mk l ≠ "all" := by
  intro h
  have hd : l = "all".toList := congrArg String.toList h
  rw [hd] at hl
  exact absurd hl (by decide)

lemma string_mk_ne_all_of_digits {l : List Char}
    (hdig : ∀ c ∈ l, isDigitChar c = true) : String.mk l ≠ "all" := by
  intro h
  have hd : l = "all".toList := congrArg String.toList h
  have ha : 'a' ∈ l := by rw [hd]; decide
  exact absurd (hdig 'a' ha) (by decide)

/-- A spec string made of a single comma-free token is parsed by one
`parseTok` step from the empty set. -/
lemma parseSpec_single_tok {l : List Char} (hnc : ∀ c ∈ l, c ≠ ',') (hne : l ≠ [])
    (hall : String.mk l ≠ "all") (N : Int) :
    parseSpec (String.mk l) N = parseTok N ∅ l := by
  unfold parseSpec
  rw [if_neg hall, show (String.mk l).toList = l from rfl,
    getlineTokens_no_comma hnc hne, List.foldlM_cons]
  cases parseTok N ∅ l <;> simp

end Stamp

namespace Stamp

/-! ## Parsing a symbolic range token -/

lemma intStr_chars (b : Int) : ∀ c ∈ intStr b, c = '-' ∨ isDigitChar c = true := by
  unfold intStr
  split
  · intro c hc
    rcases List.mem_cons.mp hc with h | h
    · exact Or.inl h
    · exact Or.inr (natStr_digits _ c h)
  · intro c hc
    exact Or.inr (natStr_digits _ c hc)

lemma natStr_no_dash (n : Nat) : ∀ c ∈ natStr n, c ≠ '-' :=
  fun c hc => digit_ne_dash (natStr_digits n c hc)

lemma range_token_no_comma (a : Nat) (b : Int) :
    ∀ c ∈ natStr a ++ '-' :: intStr b, c ≠ ',' := by
  intro c hc
  rcases List.mem_append.mp hc with h | h
  · exact digit_ne_comma (natStr_digits a c h)
  · rcases List.mem_cons.mp h with h | h
    · subst h; decide
    · rcases intStr_chars b c h with h1 | h1
      · subst h1; decide
      · exact digit_ne_comma h1

/-- `std::stoi` recovers an in-range integer from its decimal
rendering. -/
lemma stoi_intStr (b : Int) (hb1 : -2147483648 ≤ b) (hb2 : b ≤ 2147483647) :
    stoi (intStr b) = some b := by
  unfold intStr
  split
  · next hb =>
      rw [stoi_neg_natStr (-b).toNat (by omega)]
      congr 1
      omega
  · next hb =>
      rw [stoi_natStr b.toNat (by omega)]
      congr 1
      omega

/-- One `parseTok` step on the token `a-b` (`a` rendered without a
sign): swap when reversed, clamp into `[1, N]`, insert the interval. -/
lemma parseTok_range (N : Int) (acc : Finset Int) (a : Nat) (b : Int)
    (ha : (a : Int) ≤ 2147483647) (hb1 : -2147483648 ≤ b) (hb2 : b ≤ 2147483647) :
    parseTok N acc (natStr a ++ '-' :: intStr b) =
      some (acc ∪ Finset.Icc (max 1 (min (a : Int) b)) (min N (max (a : Int) b))) := by
  have hfind : strFind '-' (natStr a ++ '-' :: intStr b) = some (natStr a).length :=
    strFind_append '-' (natStr a) (intStr b) (natStr_no_dash a)
  have htake : (natStr a ++ '-' :: intStr b).take (natStr a).length = natStr a :=
    List.take_left (natStr a) ('-' :: intStr b)
  have hdrop : (natStr a ++ '-' :: intStr b).drop ((natStr a).length + 1) = intStr b := by
    rw [show natStr a ++ '-' :: intStr b = (natStr a ++ ['-']) ++ intStr b by simp]
    exact List.drop_left' (by simp)
  simp only [parseTok, hfind, htake, hdrop, stoi_natStr a ha, stoi_intStr b hb1 hb2,
    Option.pure_def, Option.bind_eq_bind, Option.some_bind]
  rcases le_or_lt (a : Int) b with hab | hab
  · simp only [if_neg (not_lt.mpr hab)]
    rw [min_eq_left hab, max_eq_right hab, max_comm ((a : Int)) 1, min_comm b N]
  · simp only [if_pos hab]
    rw [min_eq_right (le_of_lt hab), max_eq_left (le_of_lt hab),
      max_comm b 1, min_comm ((a : Int)) N]

/-- One `parseTok` step on an unsigned single-page token whose value
is outside `[1, N]` leaves the accumulated set unchanged. -/
lemma parseTok_single_out_of_range (N : Int) (acc : Finset Int) (n : Nat)
    (hn : (n : Int) ≤ 2147483647) (hout : n = 0 ∨ N < (n : Int)) :
    parseTok N acc (natStr n) = some acc := by
  simp only [parseTok, strFind_eq_none (natStr_no_dash n), stoi_natStr n hn,
    Option.pure_def, Option.bind_eq_bind, Option.some_bind]
  have hno : ¬(1 ≤ (n : Int) ∧ (n : Int) ≤ N) := by
    rcases hout with h | h <;> omega
  rw [if_neg hno]

end Stamp

namespace Stamp

/-! ## Batch loop invariants -/

lemma filter_Icc_step (n start : Int) (P : Int → Prop) [DecidablePred P] (hs : start ≤ n) :
    (Finset.Icc start (min (start + 39) n)).filter P ∪ (Finset.Icc (start + 40) n).filter P
      = (Finset.Icc start n).filter P := by
  rw [← Finset.filter_union]
  congr 1
  ext p
  simp only [Finset.mem_union, Finset.mem_Icc]
  rcases le_total (start + 39) n with hc | hc
  · rw [min_eq_left hc]
    constructor
    · rintro (⟨hp1, hp2⟩ | ⟨hp1, hp2⟩) <;> exact ⟨by omega, by omega⟩
    · rintro ⟨hp1, hp2⟩
      by_cases hpc : p ≤ start + 39
      · exact Or.inl ⟨hp1, hpc⟩
      · exact Or.inr ⟨by omega, hp2⟩
  · rw [min_eq_right hc]
    constructor
    · rintro (⟨hp1, hp2⟩ | ⟨hp1, hp2⟩) <;> exact ⟨by omega, by omega⟩
    · rintro ⟨hp1, hp2⟩
      exact Or.inl ⟨hp1, hp2⟩

/-- When every incremental save succeeds, the batch loop runs to
completion; its batches are `batchesFrom`, it issues one save per
batch, and it stamps exactly the selected, loadable pages of
`[start, pageCount]`. -/
lemma batchLoop_allOk (env : Env) (wanted : Finset Int)
    (hsave : ∀ m, env.saveResult m = true) :
    ∀ (fuel : Nat) (start : Int) (k : Nat) (sink : Sink) (mutated : Finset Int),
      (env.pageCount + 1 - start).toNat ≤ fuel →
      (batchLoop env wanted fuel start k sink mutated).success = true ∧
      (batchLoop env wanted fuel start k sink mutated).batches =
        batchesFrom env.pageCount fuel start ∧
      (batchLoop env wanted fuel start k sink mutated).saves =
        k + (batchesFrom env.pageCount fuel start).length ∧
      (batchLoop env wanted fuel start k sink mutated).mutated =
        mutated ∪ (Finset.Icc start env.pageCount).filter
          (fun p => p ∈ wanted ∧ env.pageLoadOk p = true) := by
  intro fuel
  induction fuel with
  | zero =>
      intro start k sink mutated h
      have hempty : Finset.Icc start env.pageCount = ∅ :=
        Finset.Icc_eq_empty (by omega)
      simp [batchLoop, batchesFrom, hempty]
  | succ fuel ih =>
      intro start k sink mutated h
      by_cases hs : start ≤ env.pageCount
      · have hm : (env.pageCount + 1 - (start + 40)).toNat ≤ fuel := by omega
        obtain ⟨h1, h2, h3, h4⟩ := ih (start + 40) (k + 1)
          (sink.writeBytes (env.saveBytes k))
          (mutated ∪ (Finset.Icc start (min (start + 39) env.pageCount)).filter
            (fun p => p ∈ wanted ∧ env.pageLoadOk p = true)) hm
        simp only [batchLoop, batchesFrom, if_pos hs, hsave k, if_true]
        refine ⟨h1, by rw [h2], by rw [h3, List.length_cons]; omega, ?_⟩
        rw [h4, Finset.union_assoc,
          filter_Icc_step env.pageCount start (fun p => p ∈ wanted ∧ env.pageLoadOk p = true) hs]
      · have hempty : Finset.Icc start env.pageCount = ∅ :=
          Finset.Icc_eq_empty hs
        simp [batchLoop, batchesFrom, if_neg hs, hempty]

/-- When the first `j` saves succeed, the j-th batch exists, and the
j-th save fails, the loop stops right there: it reports failure after
exactly `j + 1` save calls. -/
lemma batchLoop_failAt (env : Env) (wanted : Finset Int) (j : Nat)
    (hfail : env.saveResult j = false)
    (hpre : ∀ m, m < j → env.saveResult m = true) :
    ∀ (fuel : Nat) (start : Int) (k : Nat) (sink : Sink) (mutated : Finset Int),
      (env.pageCount + 1 - start).toNat ≤ fuel →
      k ≤ j → start = 1 + 40 * (k : Int) →
      1 + 40 * (j : Int) ≤ env.pageCount →
      (batchLoop env wanted fuel start k sink mutated).success = false ∧
      (batchLoop env wanted fuel start k sink mutated).saves = j + 1 ∧
      (batchLoop env wanted fuel start k sink mutated).batches.length = j + 1 - k := by
  intro fuel
  induction fuel with
  | zero =>
      intro start k sink mutated h hkj hstart hreach
      exfalso
      have : (k : Int) ≤ (j : Int) := by exact_mod_cast hkj
      omega
  | succ fuel ih =>
      intro start k sink mutated h hkj hstart hreach
      have hks : start ≤ env.pageCount := by
        have : (k : Int) ≤ (j : Int) := by exact_mod_cast hkj
        omega
      rcases Nat.lt_or_ge k j with hlt | hge
      · have hsk : env.saveResult k = true := hpre k hlt
        have hm : (env.pageCount + 1 - (start + 40)).toNat ≤ fuel := by omega
        obtain ⟨h1, h2, h3⟩ := ih (start + 40) (k + 1)
          (sink.writeBytes (env.saveBytes k))
          (mutated ∪ (Finset.Icc start (min (start + 39) env.pageCount)).filter
            (fun p => p ∈ wanted ∧ env.pageLoadOk p = true)) hm
          (by omega) (by push_cast; omega) hreach
        simp only [batchLoop, if_pos hks, hsk, if_true]
        exact ⟨h1, h2, by rw [List.length_cons, h3]; omega⟩
      · have hkj' : k = j := by omega
        subst hkj'
        simp only [batchLoop, if_pos hks, hfail]
        refine ⟨rfl, rfl, by simp⟩

end Stamp

namespace Stamp

/-! ## Shape of the batch intervals -/

lemma batchesFrom_bounds (n : Int) :
    ∀ (fuel : Nat) (start : Int), ∀ b ∈ batchesFrom n fuel start,
      start ≤ b.1 ∧ b.1 ≤ b.2 ∧ b.2 ≤ n ∧ b.2 - b.1 ≤ 39 := by
  intro fuel
  induction fuel with
  | zero => intro start b hb; simp [batchesFrom] at hb
  | succ fuel ih =>
      intro start b hb
      by_cases hs : start ≤ n
      · rw [batchesFrom, if_pos hs] at hb
        rcases List.mem_cons.mp hb with hb | hb
        · subst hb
          rcases le_total (start + 39) n with hc | hc
          · rw [min_eq_left hc]
            exact ⟨le_refl _, by omega, by omega, by omega⟩
          · rw [min_eq_right hc]
            exact ⟨le_refl _, by omega, by omega, by omega⟩
        · obtain ⟨hb1, hb2, hb3, hb4⟩ := ih (start + 40) b hb
          exact ⟨by omega, hb2, hb3, hb4⟩
      · rw [batchesFrom, if_neg hs] at hb
        simp at hb

lemma batchesFrom_head (n : Int) (fuel : Nat) (start : Int) :
    batchesFrom n fuel start = [] ∨
    ∃ t, batchesFrom n fuel start = (start, min (start + 39) n) :: t := by
  cases fuel with
  | zero => exact Or.inl rfl
  | succ fuel =>
      by_cases hs : start ≤ n
      · exact Or.inr ⟨batchesFrom n fuel (start + 40), by rw [batchesFrom, if_pos hs]⟩
      · exact Or.inl (by rw [batchesFrom, if_neg hs])

/-- Consecutive batches abut: each batch starts right after the
previous one ends. -/
lemma batchesFrom_chain (n : Int) :
    ∀ (fuel : Nat) (start : Int),
      (batchesFrom n fuel start).Chain' (fun b c => c.1 = b.2 + 1) := by
  intro fuel
  induction fuel with
  | zero => intro start; simp [batchesFrom]
  | succ fuel ih =>
      intro start
      by_cases hs : start ≤ n
      · rw [batchesFrom, if_pos hs]
        rw [List.chain'_cons']
        refine ⟨?_, ih (start + 40)⟩
        intro c hc
        rcases batchesFrom_head n fuel (start + 40) with hh | ⟨t, hh⟩
        · rw [hh] at hc; simp at hc
        · rw [hh] at hc
          simp only [List.head?_cons, Option.mem_def, Option.some.injEq] at hc
          subst hc
          have hs2 : start + 40 ≤ n := by
            by_contra hcon
            rcases batchesFrom_head n fuel (start + 40) with hh2 | ⟨t2, hh2⟩
            · rw [hh2] at hh; simp at hh
            · cases fuel with
              | zero => simp [batchesFrom] at hh
              | succ fuel2 => rw [batchesFrom, if_neg hcon] at hh; simp at hh
          simp only []
          rw [min_eq_left (by omega : start + 39 ≤ n)]
          omega
      · rw [batchesFrom, if_neg hs]
        simp

/-- The batches cover the index interval `[start, n]` exactly. -/
lemma batchesFrom_cover (n : Int) :
    ∀ (fuel : Nat) (start : Int), (n + 1 - start).toNat ≤ fuel →
      (batchesFrom n fuel start).foldr (fun b acc => Finset.Icc b.1 b.2 ∪ acc) ∅ =
        Finset.Icc start n := by
  intro fuel
  induction fuel with
  | zero =>
      intro start h
      rw [show batchesFrom n 0 start = [] from rfl]
      simp [Finset.Icc_eq_empty (show ¬start ≤ n by omega)]
  | succ fuel ih =>
      intro start h
      by_cases hs : start ≤ n
      · rw [batchesFrom, if_pos hs, List.foldr_cons, ih (start + 40) (by omega)]
        ext p
        simp only [Finset.mem_union, Finset.mem_Icc]
        rcases le_total (start + 39) n with hc | hc
        · rw [min_eq_left hc]
          constructor
          · rintro (⟨h1, h2⟩ | ⟨h1, h2⟩) <;> exact ⟨by omega, by omega⟩
          · rintro ⟨h1, h2⟩
            by_cases hpc : p ≤ start + 39
            · exact Or.inl ⟨h1, hpc⟩
            · exact Or.inr ⟨by omega, h2⟩
        · rw [min_eq_right hc]
          constructor
          · rintro (⟨h1, h2⟩ | ⟨h1, h2⟩) <;> exact ⟨by omega, by omega⟩
          · rintro ⟨h1, h2⟩
            exact Or.inl ⟨h1, h2⟩
      · rw [batchesFrom, if_neg hs]
        simp [Finset.Icc_eq_empty hs]

/-- Number of batches: the ceiling of the remaining page count over
the step size 40. -/
lemma batchesFrom_length (n : Int) :
    ∀ (fuel : Nat) (start : Int), (n + 1 - start).toNat ≤ fuel →
      (batchesFrom n fuel start).length = (n + 40 - start).toNat / 40 := by
  intro fuel
  induction fuel with
  | zero =>
      intro start h
      rw [show batchesFrom n 0 start = [] from rfl]
      simp only [List.length_nil]
      omega
  | succ fuel ih =>
      intro start h
      by_cases hs : start ≤ n
      · rw [batchesFrom, if_pos hs, List.length_cons, ih (start + 40) (by omega)]
        omega
      · rw [batchesFrom, if_neg hs]
        simp only [List.length_nil]
        omega

end Stamp

namespace Stamp

/-! ## Every parsed selection lies within the page range -/

lemma parseTok_subset {N : Int} {acc acc' : Finset Int} {tok : List Char}
    (h : parseTok N acc tok = some acc') (hacc : acc ⊆ Finset.Icc 1 N) :
    acc' ⊆ Finset.Icc 1 N := by
  rcases hf : strFind '-' tok with _ | dash
  · rcases hs : stoi tok with _ | p
    · simp only [parseTok, hf, hs, Option.pure_def, Option.bind_eq_bind,
        Option.none_bind] at h
      exact Option.noConfusion h
    · simp only [parseTok, hf, hs, Option.pure_def, Option.bind_eq_bind,
        Option.some_bind, Option.some.injEq] at h
      subst h
      split
      · next hp =>
          intro x hx
          rcases Finset.mem_insert.mp hx with hx | hx
          · subst hx; exact Finset.mem_Icc.mpr ⟨hp.1, hp.2⟩
          · exact hacc hx
      · exact hacc
  · rcases hs1 : stoi (tok.take dash) with _ | a
    · simp only [parseTok, hf, hs1, Option.pure_def, Option.bind_eq_bind,
        Option.none_bind] at h
      exact Option.noConfusion h
    · rcases hs2 : stoi (tok.drop (dash + 1)) with _ | b
      · simp only [parseTok, hf, hs1, hs2, Option.pure_def, Option.bind_eq_bind,
          Option.some_bind, Option.none_bind] at h
        exact Option.noConfusion h
      · simp only [parseTok, hf, hs1, hs2, Option.pure_def, Option.bind_eq_bind,
          Option.some_bind, Option.some.injEq] at h
        subst h
        intro x hx
        rcases Finset.mem_union.mp hx with hx | hx
        · exact hacc hx
        · have := Finset.mem_Icc.mp hx
          refine Finset.mem_Icc.mpr ⟨?_, ?_⟩
          · have h1 : (1 : Int) ≤ max (if a > b then b else a) 1 := le_max_right _ 1
            omega
          · have h2 : min (if a > b then a else b) N ≤ N := min_le_right _ N
            omega

lemma foldlM_parseTok_subset (N : Int) :
    ∀ (toks : List (List Char)) (acc w : Finset Int), acc ⊆ Finset.Icc 1 N →
      List.foldlM (parseTok N) acc toks = some w → w ⊆ Finset.Icc 1 N := by
  intro toks
  induction toks with
  | nil =>
      intro acc w hacc h
      simp only [List.foldlM_nil, Option.pure_def, Option.some.injEq] at h
      exact h ▸ hacc
  | cons t ts ih =>
      intro acc w hacc h
      rw [List.foldlM_cons] at h
      rcases ht : parseTok N acc t with _ | acc' <;> rw [ht] at h
      · simp at h
      · simp only [Option.bind_eq_bind, Option.some_bind] at h
        exact ih acc' w (parseTok_subset ht hacc) h

/-- Whatever the spec string, the parsed selection only contains page
indices in `[1, pageCount]`. -/
lemma parseSpec_subset {spec : String} {N : Int} {w : Finset Int}
    (h : parseSpec spec N = some w) : w ⊆ Finset.Icc 1 N := by
  unfold parseSpec at h
  split at h
  · simp only [Option.some.injEq] at h
    exact h ▸ Finset.Subset.refl _
  · exact foldlM_parseTok_subset N _ ∅ w (Finset.empty_subset _) h

/-! ## Run-level reductions -/

/-- After a successful load and a nonempty parsed selection, the run
is the copy-rewind-batch pipeline. -/
lemma run_eq_runBatches (env : Env) (spec : String) (wanted : Finset Int)
    (hload : env.loadOk = true) (hparse : parseSpec spec env.pageCount = some wanted)
    (hne : wanted ≠ ∅) :
    InplaceIncrementalStamp env spec = runBatches env wanted := by
  unfold InplaceIncrementalStamp
  rw [hload, hparse]
  simp [hne]

/-- Abbreviation for the loop state the run starts from. -/
def runLoop (env : Env) (wanted : Finset Int) : LoopRes :=
  batchLoop env wanted (env.pageCount + 1).toNat 1 0
    ((Sink.copyFrom env.inputBytes).rewind) ∅

lemma runBatches_ok (env : Env) (wanted : Finset Int) :
    (runBatches env wanted).ok = (runLoop env wanted).success := rfl

lemma runBatches_error (env : Env) (wanted : Finset Int) :
    (runBatches env wanted).error =
      if (runLoop env wanted).success then none else some RunError.saveErr := rfl

lemma runBatches_sinkOpened (env : Env) (wanted : Finset Int) :
    (runBatches env wanted).sinkOpened = true := rfl

lemma runBatches_cursorAfterCopy (env : Env) (wanted : Finset Int) :
    (runBatches env wanted).cursorAfterCopy = env.inputBytes.length := rfl

lemma runBatches_cursorAfterRewind (env : Env) (wanted : Finset Int) :
    (runBatches env wanted).cursorAfterRewind = 0 := rfl

lemma runBatches_mutated (env : Env) (wanted : Finset Int) :
    (runBatches env wanted).mutated = (runLoop env wanted).mutated := rfl

lemma runBatches_saveCalls (env : Env) (wanted : Finset Int) :
    (runBatches env wanted).saveCalls = (runLoop env wanted).saves := rfl

lemma runBatches_batches (env : Env) (wanted : Finset Int) :
    (runBatches env wanted).batches = (runLoop env wanted).batches := rfl

lemma runBatches_closedDoc (env : Env) (wanted : Finset Int) :
    (runBatches env wanted).closedDoc = (runLoop env wanted).success := rfl

lemma runBatches_destroyedLib (env : Env) (wanted : Finset Int) :
    (runBatches env wanted).destroyedLib = (runLoop env wanted).success := rfl

/-- The fuel handed to the loop by the run is always sufficient. -/
lemma run_fuel_ok (env : Env) : (env.pageCount + 1 - 1).toNat ≤ (env.pageCount + 1).toNat := by
  omega

end Stamp

namespace Stamp

/-! ## Loop facts lifted to the run -/

/-- When every save succeeds: the run loop completes, its batches are
the canonical batch intervals, one save is issued per batch, and the
stamped set is the selected loadable part of `[1, pageCount]`. -/
lemma runLoop_allOk (env : Env) (wanted : Finset Int)
    (hsave : ∀ m, env.saveResult m = true) :
    (runLoop env wanted).success = true ∧
    (runLoop env wanted).batches =
      batchesFrom env.pageCount (env.pageCount + 1).toNat 1 ∧
    (runLoop env wanted).saves =
      (batchesFrom env.pageCount (env.pageCount + 1).toNat 1).length ∧
    (runLoop env wanted).mutated =
      (Finset.Icc 1 env.pageCount).filter
        (fun p => p ∈ wanted ∧ env.pageLoadOk p = true) := by
  obtain ⟨h1, h2, h3, h4⟩ := batchLoop_allOk env wanted hsave
    ((env.pageCount + 1).toNat) 1 0 ((Sink.copyFrom env.inputBytes).rewind) ∅ (by omega)
  exact ⟨h1, h2, by simpa using h3, by simpa using h4⟩

/-! ## Concrete environments used as witnesses and counterexamples -/

/-- A one-page document whose input file is the single byte 1; every
page loads, every save succeeds, and each save writes the byte 9. -/
def env1 : Env :=
  { loadOk := true, pageCount := 1, pageLoadOk := fun _ => true,
    saveResult := fun _ => true, saveBytes := fun _ => [9], inputBytes := [1] }

/-- A five-page document with input byte 7; all operations succeed. -/
def env2 : Env :=
  { loadOk := true, pageCount := 5, pageLoadOk := fun _ => true,
    saveResult := fun _ => true, saveBytes := fun _ => [], inputBytes := [7] }

/-- A 100-page document; all operations succeed. -/
def env100 : Env :=
  { loadOk := true, pageCount := 100, pageLoadOk := fun _ => true,
    saveResult := fun _ => true, saveBytes := fun _ => [], inputBytes := [] }

/-- A 100-page document whose second incremental save fails. -/
def envSaveFail : Env :=
  { loadOk := true, pageCount := 100, pageLoadOk := fun _ => true,
    saveResult := fun k => k == 0, saveBytes := fun _ => [], inputBytes := [] }

/-- A three-page document whose page 2 fails to load. -/
def envUnitFail : Env :=
  { loadOk := true, pageCount := 3, pageLoadOk := fun p => !(p == 2),
    saveResult := fun _ => true, saveBytes := fun _ => [], inputBytes := [] }

/-- A zero-page document; all operations succeed. -/
def env0 : Env :=
  { loadOk := true, pageCount := 0, pageLoadOk := fun _ => true,
    saveResult := fun _ => true, saveBytes := fun _ => [], inputBytes := [] }

end Stamp

namespace Stamp

/-! ## Claim C1 -/

/-- C1, counterexample.  On a successful run over the one-byte input
file `[1]`, the first incremental save writes from offset 0 (the
cursor was rewound to zero, not to the append point), so the output
prefix of the input file's length is no longer byte-identical to the
input, and the cursor after the rewind differs from the cursor after
the copy. -/
theorem C1_counterexample :
    (InplaceIncrementalStamp env1 "1").ok = true ∧
    env1.inputBytes.length = 1 ∧
    (InplaceIncrementalStamp env1 "1").sink.data.take 1 ≠ env1.inputBytes.take 1 ∧
    (InplaceIncrementalStamp env1 "1").cursorAfterRewind ≠
      (InplaceIncrementalStamp env1 "1").cursorAfterCopy := by
  decide

/-- C1, amended.  After the verbatim copy the cursor stands at the
copy's end, and the rewind (src/stamp.cpp line 185, `std::rewind`)
repositions it to offset zero — the start of the file, not the
position immediately after the copy — so subsequent incremental saves
write sequentially from offset 0 and preservation of the copied
prefix is delegated to whatever bytes the external library writes,
not guaranteed by the cursor discipline. -/
theorem C1_rewind_to_zero (env : Env) (spec : String) (wanted : Finset Int)
    (hload : env.loadOk = true)
    (hparse : parseSpec spec env.pageCount = some wanted)
    (hne : wanted ≠ ∅) :
    (InplaceIncrementalStamp env spec).sinkOpened = true ∧
    (InplaceIncrementalStamp env spec).cursorAfterCopy = env.inputBytes.length ∧
    (InplaceIncrementalStamp env spec).cursorAfterRewind = 0 := by
  rw [run_eq_runBatches env spec wanted hload hparse hne]
  exact ⟨rfl, rfl, rfl⟩

/-- C1, witness for the amended theorem at a concrete run. -/
theorem C1_rewind_to_zero_witness :
    (InplaceIncrementalStamp env1 "1").sinkOpened = true ∧
    (InplaceIncrementalStamp env1 "1").cursorAfterCopy = env1.inputBytes.length ∧
    (InplaceIncrementalStamp env1 "1").cursorAfterRewind = 0 :=
  C1_rewind_to_zero env1 "1" {1} rfl (by decide) (by decide)

/-! ## Claim C2 -/

/-- C2, counterexample.  With the empty spec the run does fail with
the empty-selection diagnostic and exit status 1, but the output file
was never opened and holds no verbatim copy of the input: the
selection check (src/stamp.cpp line 166) precedes the output copy
(line 173). -/
theorem C2_counterexample :
    (InplaceIncrementalStamp env2 "").error = some RunError.emptySelection ∧
    mainExit env2 "" = 1 ∧
    (InplaceIncrementalStamp env2 "").sinkOpened = false ∧
    (InplaceIncrementalStamp env2 "").sink.data ≠ env2.inputBytes := by
  decide

/-- C2, amended.  For every document that loads, the empty spec fails
with the empty-selection error and exit status 1, and at that point
the output file has not been opened or written at all — no verbatim
copy exists, because the selection check precedes the copy. -/
theorem C2_empty_spec (env : Env) (hload : env.loadOk = true) :
    (InplaceIncrementalStamp env "").error = some RunError.emptySelection ∧
    (InplaceIncrementalStamp env "").ok = false ∧
    mainExit env "" = 1 ∧
    (InplaceIncrementalStamp env "").sinkOpened = false ∧
    (InplaceIncrementalStamp env "").saveCalls = 0 := by
  have hp : parseSpec "" env.pageCount = some ∅ := by
    unfold parseSpec
    rw [if_neg (by decide)]
    rfl
  have hrun : InplaceIncrementalStamp env "" = failResult RunError.emptySelection := by
    unfold InplaceIncrementalStamp
    rw [hload, hp]
    simp
  refine ⟨by rw [hrun]; rfl, by rw [hrun]; rfl, ?_, by rw [hrun]; rfl, by rw [hrun]; rfl⟩
  unfold mainExit
  rw [hrun]
  rfl

/-- C2, witness for the amended theorem at a concrete document. -/
theorem C2_empty_spec_witness :
    (InplaceIncrementalStamp env2 "").error = some RunError.emptySelection ∧
    (InplaceIncrementalStamp env2 "").ok = false ∧
    mainExit env2 "" = 1 ∧
    (InplaceIncrementalStamp env2 "").sinkOpened = false ∧
    (InplaceIncrementalStamp env2 "").saveCalls = 0 :=
  C2_empty_spec env2 rfl

end Stamp

namespace Stamp

/-! ## Claim C3 -/

/-- C3, counterexample.  For a = -1, b = 5, N = 10 the claim predicts
the set {1..5}, but the token text is "-1-5", whose first dash is at
position 0; `std::stoi` on the empty left part throws, so the whole
parse fails instead of producing the clamped interval. -/
theorem C3_counterexample :
    parseSpec "-1-5" 10 = none ∧
    parseSpec "-1-5" 10 ≠
      some (Finset.Icc (max 1 (min (-1 : Int) 5)) (min (10 : Int) (max (-1 : Int) 5))) := by
  decide

/-- C3, amended.  For every integer a ≥ 0 (whose decimal rendering
carries no sign, so the token's first dash is the separator), every
integer b, both within the 32-bit int range, and every totalUnits
N ≥ 1, parsing the one-token spec `a-b` yields exactly
{max(1, min(a,b)) .. min(N, max(a,b))}: bounds swapped when reversed,
then clamped into [1, N], an empty interval giving the empty set.
For a < 0 the parse instead fails (see the counterexample). -/
theorem C3_range_parse (a : Nat) (b N : Int) (hN : 1 ≤ N)
    (ha : (a : Int) ≤ 2147483647) (hb1 : -2147483648 ≤ b) (hb2 : b ≤ 2147483647) :
    parseSpec (String.mk (natStr a ++ '-' :: intStr b)) N =
      some (Finset.Icc (max 1 (min (a : Int) b)) (min N (max (a : Int) b))) := by
  have hne : natStr a ++ '-' :: intStr b ≠ [] := by simp
  have hall : String.mk (natStr a ++ '-' :: intStr b) ≠ "all" :=
    string_mk_ne_all_of_dash (by simp)
  rw [parseSpec_single_tok (range_token_no_comma a b) hne hall N,
    parseTok_range N ∅ a b ha hb1 hb2, Finset.empty_union]

/-- C3, witness: the spec `0-3` on a 10-unit document resolves to the
clamped interval (scenario C of the design). -/
theorem C3_range_parse_witness :
    parseSpec (String.mk (natStr 0 ++ '-' :: intStr 3)) 10 =
      some (Finset.Icc (max 1 (min ((0 : Nat) : Int) 3))
        (min (10 : Int) (max ((0 : Nat) : Int) 3))) :=
  C3_range_parse 0 3 10 (by decide) (by decide) (by decide) (by decide)

/-! ## Claim C5 -/

/-- C5, counterexample.  A negative single-integer token such as `-3`
is not silently dropped: its leading minus sign is taken for a range
dash, `std::stoi` on the empty left part throws, and the run aborts
with a parse error and exit status 1. -/
theorem C5_counterexample :
    parseSpec "-3" 10 = none ∧
    (InplaceIncrementalStamp env2 "-3").error = some RunError.parseErr ∧
    mainExit env2 "-3" = 1 := by
  decide

/-- C5, amended.  Every unsigned single-integer token whose value lies
outside [1, totalUnits] — zero or greater than totalUnits — is
silently dropped: it contributes no index to the accumulated set and
does not make the parse fail; as a whole spec it yields the empty
set.  Tokens with a minus sign are instead parsed as ranges and abort
the parse (see the counterexample). -/
theorem C5_single_token (n : Nat) (N : Int) (acc : Finset Int)
    (hn : (n : Int) ≤ 2147483647) (hout : n = 0 ∨ N < (n : Int)) :
    parseTok N acc (natStr n) = some acc ∧
    parseSpec (String.mk (natStr n)) N = some ∅ := by
  refine ⟨parseTok_single_out_of_range N acc n hn hout, ?_⟩
  rw [parseSpec_single_tok (fun c hc => digit_ne_comma (natStr_digits n c hc))
    (natStr_ne_nil n) (string_mk_ne_all_of_digits (natStr_digits n)) N,
    parseTok_single_out_of_range N ∅ n hn hout]

/-- C5, witness: the token `0` on a 5-unit document is dropped. -/
theorem C5_single_token_witness :
    parseTok 5 ∅ (natStr 0) = some ∅ ∧
    parseSpec (String.mk (natStr 0)) 5 = some ∅ :=
  C5_single_token 0 5 ∅ (by decide) (Or.inl rfl)

end Stamp

namespace Stamp

/-! ## Claim C4 -/

/-- C4, confirmed.  On every run whose saves all succeed, the batches
are nonempty consecutive in-order sub-ranges of size at most STEP = 40
that exactly cover [1, totalUnitCount], with one incremental-save call
per batch; in particular a 100-unit document gives exactly 3 saves
over 1-40, 41-80, 81-100. -/
theorem C4_batches (env : Env) (spec : String) (wanted : Finset Int)
    (hload : env.loadOk = true)
    (hsave : ∀ k, env.saveResult k = true)
    (hparse : parseSpec spec env.pageCount = some wanted)
    (hne : wanted ≠ ∅) :
    (∀ b ∈ (InplaceIncrementalStamp env spec).batches,
        1 ≤ b.1 ∧ b.1 ≤ b.2 ∧ b.2 ≤ env.pageCount ∧ b.2 - b.1 + 1 ≤ 40) ∧
    (InplaceIncrementalStamp env spec).batches.Chain' (fun b c => c.1 = b.2 + 1) ∧
    (InplaceIncrementalStamp env spec).batches.foldr
        (fun b acc => Finset.Icc b.1 b.2 ∪ acc) ∅ = Finset.Icc 1 env.pageCount ∧
    (InplaceIncrementalStamp env spec).saveCalls =
      (InplaceIncrementalStamp env spec).batches.length ∧
    (env.pageCount = 100 →
      (InplaceIncrementalStamp env spec).saveCalls = 3 ∧
      (InplaceIncrementalStamp env spec).batches = [(1, 40), (41, 80), (81, 100)]) := by
  rw [run_eq_runBatches env spec wanted hload hparse hne, runBatches_batches,
    runBatches_saveCalls]
  obtain ⟨h1, h2, h3, h4⟩ := runLoop_allOk env wanted hsave
  rw [h2, h3]
  refine ⟨?_, batchesFrom_chain env.pageCount _ 1,
    batchesFrom_cover env.pageCount _ 1 (by omega), rfl, ?_⟩
  · intro b hb
    obtain ⟨hb1, hb2, hb3, hb4⟩ := batchesFrom_bounds env.pageCount _ 1 b hb
    exact ⟨hb1, hb2, hb3, by omega⟩
  · intro h100
    rw [h100]
    constructor
    · decide
    · decide

/-- C4, witness: the 100-unit all-pages scenario. -/
theorem C4_batches_witness :
    (InplaceIncrementalStamp env100 "all").saveCalls = 3 ∧
    (InplaceIncrementalStamp env100 "all").batches = [(1, 40), (41, 80), (81, 100)] :=
  (C4_batches env100 "all" (Finset.Icc 1 100) rfl (fun _ => rfl) (by decide)
    (by decide)).2.2.2.2 rfl

/-! ## Claim C6 -/

/-- C6, confirmed.  If the first j saves succeed, the j-th batch
exists, and the j-th incremental save reports failure, the run fails
immediately with the save error and exit status 1: the failing save
is issued exactly once (saveCalls = j + 1, no retry) and no further
batch is processed (batches processed = j + 1). -/
theorem C6_save_failure (env : Env) (spec : String) (wanted : Finset Int) (j : Nat)
    (hload : env.loadOk = true)
    (hparse : parseSpec spec env.pageCount = some wanted)
    (hne : wanted ≠ ∅)
    (hfail : env.saveResult j = false)
    (hpre : ∀ m, m < j → env.saveResult m = true)
    (hreach : 1 + 40 * (j : Int) ≤ env.pageCount) :
    (InplaceIncrementalStamp env spec).ok = false ∧
    (InplaceIncrementalStamp env spec).error = some RunError.saveErr ∧
    (InplaceIncrementalStamp env spec).saveCalls = j + 1 ∧
    (InplaceIncrementalStamp env spec).batches.length = j + 1 ∧
    mainExit env spec = 1 := by
  have hrun := run_eq_runBatches env spec wanted hload hparse hne
  obtain ⟨h1, h2, h3⟩ := batchLoop_failAt env wanted j hfail hpre
    ((env.pageCount + 1).toNat) 1 0 ((Sink.copyFrom env.inputBytes).rewind) ∅
    (by omega) (by omega) (by norm_num) hreach
  have hs : (runLoop env wanted).success = false := h1
  refine ⟨?_, ?_, ?_, ?_, ?_⟩
  · rw [hrun, runBatches_ok]; exact hs
  · rw [hrun, runBatches_error, hs]; rfl
  · rw [hrun, runBatches_saveCalls]; exact h2
  · rw [hrun, runBatches_batches]
    have : (runLoop env wanted).batches.length = j + 1 - 0 := h3
    simpa using this
  · unfold mainExit
    rw [hrun, runBatches_ok, hs]
    rfl

/-- C6, witness: second save fails on a 100-page document. -/
theorem C6_save_failure_witness :
    (InplaceIncrementalStamp envSaveFail "all").ok = false ∧
    (InplaceIncrementalStamp envSaveFail "all").error = some RunError.saveErr ∧
    (InplaceIncrementalStamp envSaveFail "all").saveCalls = 2 ∧
    (InplaceIncrementalStamp envSaveFail "all").batches.length = 2 ∧
    mainExit envSaveFail "all" = 1 :=
  C6_save_failure envSaveFail "all" (Finset.Icc 1 100) 1 rfl (by decide) (by decide)
    rfl (fun m hm => by
      have hm0 : m = 0 := Nat.lt_one_iff.mp hm
      subst hm0
      rfl)
    (by decide)

end Stamp

namespace Stamp

/-! ## Claim C7 -/

/-- C7, confirmed.  When a selected unit fails to acquire it is
skipped without aborting anything: with all saves succeeding, the run
still reports success and exit status 0, the failed index is absent
from the stamped set, the stamped set is exactly the selected units
whose loads succeed, and one save is still issued per batch. -/
theorem C7_unit_fault_tolerance (env : Env) (spec : String) (wanted : Finset Int) (i : Int)
    (hload : env.loadOk = true)
    (hsave : ∀ k, env.saveResult k = true)
    (hparse : parseSpec spec env.pageCount = some wanted)
    (hne : wanted ≠ ∅)
    (hi : env.pageLoadOk i = false) :
    (InplaceIncrementalStamp env spec).ok = true ∧
    i ∉ (InplaceIncrementalStamp env spec).mutated ∧
    (InplaceIncrementalStamp env spec).mutated =
      wanted.filter (fun p => env.pageLoadOk p = true) ∧
    (InplaceIncrementalStamp env spec).saveCalls =
      (InplaceIncrementalStamp env spec).batches.length ∧
    mainExit env spec = 0 := by
  have hrun := run_eq_runBatches env spec wanted hload hparse hne
  obtain ⟨h1, h2, h3, h4⟩ := runLoop_allOk env wanted hsave
  have hmut : (runLoop env wanted).mutated =
      wanted.filter (fun p => env.pageLoadOk p = true) := by
    rw [h4]
    ext p
    simp only [Finset.mem_filter, Finset.mem_Icc]
    constructor
    · rintro ⟨_, hw, hl⟩
      exact ⟨hw, hl⟩
    · rintro ⟨hw, hl⟩
      have hin := Finset.mem_Icc.mp (parseSpec_subset hparse hw)
      exact ⟨hin, hw, hl⟩
  refine ⟨?_, ?_, ?_, ?_, ?_⟩
  · rw [hrun, runBatches_ok]; exact h1
  · rw [hrun, runBatches_mutated, hmut]
    intro hmem
    have hl := (Finset.mem_filter.mp hmem).2
    rw [hi] at hl
    exact Bool.noConfusion hl
  · rw [hrun, runBatches_mutated]; exact hmut
  · rw [hrun, runBatches_saveCalls, runBatches_batches, h2, h3]
  · unfold mainExit
    rw [hrun, runBatches_ok, h1]
    rfl

/-- C7, witness: page 2 of a three-page document fails to load; the
run still succeeds and stamps the others. -/
theorem C7_unit_fault_tolerance_witness :
    (InplaceIncrementalStamp envUnitFail "all").ok = true ∧
    (2 : Int) ∉ (InplaceIncrementalStamp envUnitFail "all").mutated ∧
    mainExit envUnitFail "all" = 0 := by
  have h := C7_unit_fault_tolerance envUnitFail "all" (Finset.Icc 1 3) 2 rfl
    (fun _ => rfl) (by decide) (by decide) rfl
  exact ⟨h.1, h.2.1, h.2.2.2.2⟩

/-! ## Claim C8 -/

/-- C8, counterexample.  The empty-selection exit path destroys
nothing: the run fails with the empty-selection error, yet neither
the document handle is closed nor the library released, refuting the
claim that both happen exactly once on every exit path. -/
theorem C8_counterexample :
    (InplaceIncrementalStamp env2 "").error = some RunError.emptySelection ∧
    (InplaceIncrementalStamp env2 "").closedDoc = false ∧
    (InplaceIncrementalStamp env2 "").destroyedLib = false := by
  decide

/-- C8, amended.  The document handle is closed and the library's
process-wide state released exactly on the successful-completion
path: on every early failure exit (load failure, parse exception,
empty selection, save failure) the function returns without
`FPDF_CloseDocument` or `FPDF_DestroyLibrary`.  No operation occurs
on the handle after its close, which is the last document operation
of the run. -/
theorem C8_cleanup_iff_success (env : Env) (spec : String) :
    (InplaceIncrementalStamp env spec).closedDoc = (InplaceIncrementalStamp env spec).ok ∧
    (InplaceIncrementalStamp env spec).destroyedLib = (InplaceIncrementalStamp env spec).ok := by
  unfold InplaceIncrementalStamp
  by_cases hl : env.loadOk = true
  · rw [hl, if_pos rfl]
    rcases hp : parseSpec spec env.pageCount with _ | w
    · exact ⟨rfl, rfl⟩
    · dsimp only
      by_cases hw : w = ∅
      · rw [if_pos hw]
        exact ⟨rfl, rfl⟩
      · rw [if_neg hw]
        exact ⟨rfl, rfl⟩
  · rw [if_neg hl]
    exact ⟨rfl, rfl⟩

/-! ## Claim C9 -/

/-- C9, confirmed.  The batch loop walks the whole index range
regardless of the selection: for every loadable document with at
least one unit, every spec parsing to a nonempty selection, and all
saves succeeding, the number of incremental-save calls is
ceil(totalUnitCount / 40), written here as (pageCount + 39) / 40 in
integer division. -/
theorem C9_save_count (env : Env) (spec : String) (wanted : Finset Int)
    (hload : env.loadOk = true)
    (hsave : ∀ k, env.saveResult k = true)
    (hparse : parseSpec spec env.pageCount = some wanted)
    (hne : wanted ≠ ∅)
    (hN : 1 ≤ env.pageCount) :
    (InplaceIncrementalStamp env spec).saveCalls = (env.pageCount + 39).toNat / 40 := by
  rw [run_eq_runBatches env spec wanted hload hparse hne, runBatches_saveCalls,
    (runLoop_allOk env wanted hsave).2.2.1,
    batchesFrom_length env.pageCount _ 1 (by omega)]
  omega

/-- C9, witness: the spec `1` on a 100-unit document still issues 3
saves, one per batch, though only the first batch contains the
selected unit. -/
theorem C9_save_count_witness :
    (InplaceIncrementalStamp env100 "1").saveCalls = 3 := by
  have h := C9_save_count env100 "1" {1} rfl (fun _ => rfl) (by decide) (by decide)
    (by decide)
  rw [h]
  decide

/-! ## Claim C10 -/

/-- C10, confirmed.  On a zero-unit document the spec `all` expands to
the empty set, so the run fails with the empty-selection error and
exit status 1 even though every unit was requested. -/
theorem C10_zero_pages (env : Env) (hload : env.loadOk = true)
    (hpage : env.pageCount = 0) :
    (InplaceIncrementalStamp env "all").error = some RunError.emptySelection ∧
    (InplaceIncrementalStamp env "all").ok = false ∧
    mainExit env "all" = 1 := by
  have hp : parseSpec "all" env.pageCount = some ∅ := by
    unfold parseSpec
    rw [if_pos rfl, hpage, Finset.Icc_eq_empty (by omega : ¬(1 : Int) ≤ 0)]
  have hrun : InplaceIncrementalStamp env "all" = failResult RunError.emptySelection := by
    unfold InplaceIncrementalStamp
    rw [hload, hp]
    simp
  refine ⟨by rw [hrun]; rfl, by rw [hrun]; rfl, ?_⟩
  unfold mainExit
  rw [hrun]
  rfl

/-- C10, witness at a concrete zero-page document. -/
theorem C10_zero_pages_witness :
    (InplaceIncrementalStamp env0 "all").error = some RunError.emptySelection ∧
    (InplaceIncrementalStamp env0 "all").ok = false ∧
    mainExit env0 "all" = 1 :=
  C10_zero_pages env0 rfl rfl

end Stamp
